import Mathlib

/-!
Shallow embedding of the procedural Metroidvania map generator of
`src/map-generator.js` (class `MetroidvaniaGenerator`).

JS numbers are modelled as exact rationals (`ℚ`).  The single shared
`Math.random()` source is modelled as an `Oracle`: each call site of
`Math.random()` receives its own value, indexed by the loop indices at that
site.  Since every JS draw is an arbitrary value of `[0,1)`, this is a
re-parameterisation of the sequential stream.  The one genuine abstraction is
trigonometry: the code computes the branch offsets `Math.cos(angle)*distance`
and `Math.sin(angle)*distance`, which are not rational; the oracle supplies
those two real (here: rational) values directly (fields `cosDist`/`sinDist`).
This over-approximates the set of reachable worlds, so universally quantified
theorems proved here hold in particular for the original program; all concrete
executions used below only use offsets realisable by an actual angle and a
distance in `{6,…,9}` (points on those circles, e.g. `(0,8)` for
`angle = π/2, distance = 8`).
-/

namespace AbyssWalker

/-- Model of the JS idiom `Math.floor(r * n)` for `r ∈ [0,1)`.
For `n = 0` this is `Math.floor(0) = 0`, exactly as in JS (relevant to the
ability-gating defect below). -/
def randNat (q : ℚ) (n : ℕ) : ℕ := (⌊q * (n : ℚ)⌋).toNat

/-- Room types: the JS strings `'spawn' | 'boss' | 'ability' | 'save' |
'secret' | 'normal'`. -/
inductive RoomType where
  | spawn | boss | ability | save | secret | normal
deriving DecidableEq

/-- A tile record `{x, y, type}` pushed by `generateRoomGeometries`
(`type` is the JS string `'wall'` or `'floor'`). -/
structure Tile where
  x : ℚ
  y : ℚ
  type : String
deriving DecidableEq

/-- A doorway record `{x, y, targetRoom}` pushed by `createDoorway`. -/
structure Doorway where
  x : ℚ
  y : ℚ
  targetRoom : ℕ
deriving DecidableEq

/-- An enemy record `{x, y, type}` pushed by `populateWorld`. -/
structure Enemy where
  x : ℚ
  y : ℚ
  type : String
deriving DecidableEq

/-- An item record `{x, y, type}` pushed by `populateWorld`. -/
structure Item where
  x : ℚ
  y : ℚ
  type : String
deriving DecidableEq

/-- A room object, with the fields of the JS room literals
(`generateRoomGraph` lines 42-52 and 67-77) plus the fields attached by the
later stages (`ability`, `tiles`, `doorways`, `enemies`, `items`). -/
structure Room where
  id : ℕ
  x : ℚ
  y : ℚ
  width : ℕ
  height : ℕ
  type : RoomType
  center : ℚ × ℚ
  connections : List ℕ
  requiredAbility : Option String := none
  ability : Option String := none
  tiles : List Tile := []
  doorways : List Doorway := []
  enemies : List Enemy := []
  items : List Item := []
deriving DecidableEq

instance : Inhabited Room :=
  ⟨{ id := 0, x := 0, y := 0, width := 0, height := 0, type := .normal,
     center := (0, 0), connections := [] }⟩

/-- A connection record `{from, to, type: 'normal'}`. -/
structure Connection where
  «from» : ℕ
  «to» : ℕ
  type : String := "normal"
deriving DecidableEq

/-- The oracle: one field per `Math.random()` call site, indexed by the loop
indices in scope at that site (room index `i` and placement attempt where
applicable).  `cosDist`/`sinDist` abstract `cos(angle)*distance` and
`sin(angle)*distance` (see the file header). -/
structure Oracle where
  numRoomsR : ℚ
  parentR : ℕ → ℕ → ℚ
  cosDist : ℕ → ℕ → ℚ
  sinDist : ℕ → ℕ → ℚ
  widthR : ℕ → ℕ → ℚ
  heightR : ℕ → ℕ → ℚ
  secretR : ℕ → ℕ → ℚ
  gateChanceR : ℕ → ℚ
  gatePickR : ℕ → ℚ
  enemyCountR : ℕ → ℚ
  enemyXR : ℕ → ℕ → ℚ
  enemyYR : ℕ → ℕ → ℚ
  enemyTypeR : ℕ → ℕ → ℚ
  itemChanceR : ℕ → ℚ

/-- A rational in the range of `Math.random()`. -/
def unitR (q : ℚ) : Prop := 0 ≤ q ∧ q < 1

/-- Validity of an oracle: every `Math.random()` value lies in `[0,1)`, and
the abstracted trigonometric offsets are bounded by the maximal branch
distance `9` (`|cos(angle)|, |sin(angle)| ≤ 1`, `distance ≤ 9`). -/
structure Oracle.Valid (o : Oracle) : Prop where
  numRoomsR01 : unitR o.numRoomsR
  parentR01 : ∀ i a, unitR (o.parentR i a)
  widthR01 : ∀ i a, unitR (o.widthR i a)
  heightR01 : ∀ i a, unitR (o.heightR i a)
  secretR01 : ∀ i a, unitR (o.secretR i a)
  gateChanceR01 : ∀ i, unitR (o.gateChanceR i)
  gatePickR01 : ∀ i, unitR (o.gatePickR i)
  cosDistBound : ∀ i a, |o.cosDist i a| ≤ 9
  sinDistBound : ∀ i a, |o.sinDist i a| ≤ 9
  enemyCountR01 : ∀ i, unitR (o.enemyCountR i)
  enemyXR01 : ∀ i k, unitR (o.enemyXR i k)
  enemyYR01 : ∀ i k, unitR (o.enemyYR i k)
  enemyTypeR01 : ∀ i k, unitR (o.enemyTypeR i k)
  itemChanceR01 : ∀ i, unitR (o.itemChanceR i)

/-- `this.tileSize = 32`. -/
def tileSize : ℕ := 32

/-- `this.abilities = ['double_jump', 'wall_jump', 'dash', 'grappling']`. -/
def abilities : List String := ["double_jump", "wall_jump", "dash", "grappling"]

/-- The spawn room literal (`generateRoomGraph` lines 42-52).  Note
`x: this.width / 2` is JS real division (a half-integer when `w` is odd), and
`center` is initialised to `{x: 0, y: 0}` and — unlike for every other room —
never recomputed. -/
def mkSpawnRoom (w h : ℕ) : Room :=
  { id := 0, x := (w : ℚ) / 2, y := (h : ℚ) / 2, width := 8, height := 6,
    type := .spawn, center := (0, 0), connections := [], requiredAbility := none }

/-- `getRoomType(index, total)` (lines 100-106); the attempt index `a` only
selects the oracle value for the `Math.random() < 0.2` draw. -/
def getRoomType (o : Oracle) (i a total : ℕ) : RoomType :=
  if i = total - 1 then .boss
  else if i % 4 = 0 then .ability
  else if i % 3 = 0 then .save
  else if o.secretR i a < 1/5 then .secret
  else .normal

/-- The body of the overlap test in `roomsOverlap` (lines 111-114), with
`padding = 2`. -/
def overlapsPadded (room other : Room) : Bool :=
  decide (room.x < other.x + other.width + 2) &&
  decide (room.x + room.width + 2 > other.x) &&
  decide (room.y < other.y + other.height + 2) &&
  decide (room.y + room.height + 2 > other.y)

/-- `roomsOverlap(room)` (lines 108-119). -/
def roomsOverlap (rooms : List Room) (room : Room) : Bool :=
  rooms.any fun other => overlapsPadded room other

/-- State threaded through `generateRoomGraph`: the instance fields
`this.rooms` and `this.connections`. -/
structure GenState where
  rooms : List Room
  connections : List Connection
deriving DecidableEq

/-- One placement attempt of the `while (!placed && attempts < 50)` body
(lines 59-95): pick a random existing parent, compute the candidate room,
and accept it (returning the updated state) only if it does not overlap.
`newRoom.x = Math.floor(parentRoom.x + Math.cos(angle) * distance)`, etc.
On acceptance the room's pixel `center` is computed
(`newRoom.x * tileSize + (newRoom.width * tileSize) / 2`), the room and a
connection `{from: parent.id, to: i}` are appended, and `i` is pushed onto
the parent's `connections` list. -/
def parentIdx (o : Oracle) (i attempt : ℕ) (st : GenState) : ℕ :=
  randNat (o.parentR i attempt) st.rooms.length

/-- The candidate room of one attempt (the literal of lines 67-77):
`x = Math.floor(parentRoom.x + Math.cos(angle) * distance)` and similarly
for `y`; `width = 6 + ⌊r*6⌋`, `height = 4 + ⌊r*4⌋`; `center` is the
placeholder `{x: 0, y: 0}` until acceptance. -/
def candRoom (o : Oracle) (total i attempt : ℕ) (st : GenState) : Room :=
  let parent := st.rooms.getD (parentIdx o i attempt st) default
  { id := i,
    x := ((⌊parent.x + o.cosDist i attempt⌋ : ℤ) : ℚ),
    y := ((⌊parent.y + o.sinDist i attempt⌋ : ℤ) : ℚ),
    width := 6 + randNat (o.widthR i attempt) 6,
    height := 4 + randNat (o.heightR i attempt) 4,
    type := getRoomType o i attempt total,
    center := (0, 0), connections := [], requiredAbility := none }

/-- Acceptance of a candidate (lines 80-93): fill in the pixel `center`
(`newRoom.x * tileSize + (newRoom.width * tileSize) / 2`), append the room,
append the connection `{from: parent.id, to: i}`, and push `i` onto the
parent's `connections` list. -/
def acceptRoom (i pIdx : ℕ) (cand : Room) (st : GenState) : GenState :=
  let parent := st.rooms.getD pIdx default
  let cand2 := { cand with
    center := (cand.x * tileSize + (cand.width * tileSize : ℚ) / 2,
               cand.y * tileSize + (cand.height * tileSize : ℚ) / 2) }
  { rooms := (st.rooms.set pIdx
      { parent with connections := parent.connections ++ [i] }).concat cand2,
    connections := st.connections.concat { «from» := parent.id, «to» := i } }

def attemptPlace (o : Oracle) (total i attempt : ℕ) (st : GenState) :
    Option GenState :=
  let cand := candRoom o total i attempt st
  if roomsOverlap st.rooms cand then none
  else some (acceptRoom i (parentIdx o i attempt st) cand st)

/-- The attempt loop for one room index: up to 50 attempts, stopping at the
first success (fuel counts the remaining attempts). -/
def placeRoomLoop (o : Oracle) (total i : ℕ) (st : GenState) :
    ℕ → ℕ → GenState
  | _, 0 => st
  | attempt, fuel + 1 =>
    match attemptPlace o total i attempt st with
    | some st' => st'
    | none => placeRoomLoop o total i st (attempt + 1) fuel

/-- `const numRooms = 15 + Math.floor(Math.random() * 10)` (line 39). -/
def targetCount (o : Oracle) : ℕ := 15 + randNat o.numRoomsR 10

/-- `generateRoomGraph()` (lines 38-98): the spawn room followed by the
placement loop `for (let i = 1; i < numRooms; i++)`. -/
def generateRoomGraph (o : Oracle) (w h total : ℕ) : GenState :=
  (List.range' 1 (total - 1)).foldl
    (fun st i => placeRoomLoop o total i st 0 50)
    { rooms := [mkSpawnRoom w h], connections := [] }

/-- The ability-placement loop of `placeAbilityGates` (lines 122-133):
walk the rooms in order, assigning `abilities[abilityIndex]` to each
`'ability'`-typed room while `abilityIndex < abilities.length`, recording
`abilityLocations[ability] = room.center`.  Returns the updated rooms, the
accumulated location map (as an insertion-ordered association list) and the
final `abilityIndex`. -/
def placeAbilitiesLoop :
    List Room → ℕ → List (String × (ℚ × ℚ)) →
    List Room × List (String × (ℚ × ℚ)) × ℕ
  | [], idx, locs => ([], locs, idx)
  | r :: rs, idx, locs =>
    if r.type = RoomType.ability ∧ idx < abilities.length then
      let ab := abilities.getD idx ""
      let rest := placeAbilitiesLoop rs (idx + 1) (locs.concat (ab, r.center))
      ({ r with ability := some ab } :: rest.1, rest.2)
    else
      let rest := placeAbilitiesLoop rs idx locs
      (r :: rest.1, rest.2)

/-- The gating loop of `placeAbilityGates` (lines 136-141):
`for (let i = 3; i < rooms.length; i++)`, and with probability 0.3 (and the
room not being the spawn) set
`requiredAbility = abilities[Math.floor(Math.random() * Math.min(abilityIndex, abilities.length))]`.
When `abilityIndex = 0` the JS index expression is `Math.floor(r * 0) = 0`,
so `abilities[0] = 'double_jump'` is assigned even though no ability was ever
placed. -/
def gateFrom (o : Oracle) (abilityIndex : ℕ) : ℕ → List Room → List Room
  | _, [] => []
  | i, r :: rs =>
    (if 3 ≤ i ∧ o.gateChanceR i < 3/10 ∧ r.type ≠ RoomType.spawn then
      { r with
        requiredAbility := some (abilities.getD
          (randNat (o.gatePickR i) (min abilityIndex abilities.length)) "") }
    else r) :: gateFrom o abilityIndex (i + 1) rs

/-- The tile list of one room (`generateRoomGeometries` lines 147-164):
`x`-outer, `y`-inner loop, walls on the border. -/
def roomTiles (r : Room) : List Tile :=
  (List.range r.width).flatMap fun x =>
    (List.range r.height).map fun y =>
      { x := r.x + x, y := r.y + y,
        type := if x = 0 ∨ x = r.width - 1 ∨ y = 0 ∨ y = r.height - 1
                then "wall" else "floor" }

/-- The doorways of one room: `createDoorway` (lines 175-195) is invoked for
every connection incident to the room and pushes a doorway anchored at the
room's centre cell `(x + ⌊width/2⌋, y + ⌊height/2⌋)` with the other endpoint
as `targetRoom` (the computed `dx`/`dy` of lines 181-182 are dead code). -/
def roomDoorways (conns : List Connection) (r : Room) : List Doorway :=
  (conns.filter fun c => c.«from» = r.id ∨ c.«to» = r.id).map fun c =>
    { x := r.x + (r.width / 2 : ℕ), y := r.y + (r.height / 2 : ℕ),
      targetRoom := if c.«from» = r.id then c.«to» else c.«from» }

/-- `generateRoomGeometries()` (lines 144-173). -/
def generateRoomGeometries (conns : List Connection) (rooms : List Room) :
    List Room :=
  rooms.map fun r => { r with tiles := roomTiles r, doorways := roomDoorways conns r }

/-- `['patrol', 'flyer', 'turret']`. -/
def enemyTypes : List String := ["patrol", "flyer", "turret"]

/-- The enemies of one room (`populateWorld` lines 203-213): rooms of type
`'normal'` or `'ability'` get `Math.floor(Math.random()*3)` enemies at random
interior positions. -/
def roomEnemies (o : Oracle) (i : ℕ) (r : Room) : List Enemy :=
  if r.type = RoomType.normal ∨ r.type = RoomType.ability then
    (List.range (randNat (o.enemyCountR i) 3)).map fun k =>
      { x := r.x + 2 + (randNat (o.enemyXR i k) (r.width - 4) : ℕ),
        y := r.y + 2 + (randNat (o.enemyYR i k) (r.height - 4) : ℕ),
        type := enemyTypes.getD (randNat (o.enemyTypeR i k) 3) "" }
  else []

/-- The items of one room (`populateWorld` lines 216-222): with probability
0.3, one `'health'` item at the room's centre cell. -/
def roomItems (o : Oracle) (i : ℕ) (r : Room) : List Item :=
  if o.itemChanceR i < 3/10 then
    [{ x := r.x + (r.width / 2 : ℕ), y := r.y + (r.height / 2 : ℕ),
       type := "health" }]
  else []

/-- `populateWorld()` (lines 197-224); the index `i` is the room's position,
used only to select oracle values. -/
def populateFrom (o : Oracle) : ℕ → List Room → List Room
  | _, [] => []
  | i, r :: rs =>
    { r with enemies := roomEnemies o i r, items := roomItems o i r } ::
      populateFrom o (i + 1) rs

/-- The composed tilemap, as a total function on integer cells (the JS
2D array `map[worldY][worldX]`; cells never written read as the initial 0). -/
def Tilemap : Type := ℤ → ℤ → ℕ

/-- One array write `map[cy][cx] = v`. -/
def writeCell (m : Tilemap) (cy cx : ℤ) (v : ℕ) : Tilemap :=
  fun y x => if y = cy ∧ x = cx then v else m y x

/-- The doorway test of `buildTilemap` (lines 251-254):
`room.doorways?.some(d => |d.x - worldX| ≤ 1 && |d.y - worldY| ≤ 1)`. -/
def isDoorwayCell (r : Room) (wx wy : ℚ) : Bool :=
  r.doorways.any fun d => decide (|d.x - wx| ≤ 1) && decide (|d.y - wy| ≤ 1)

/-- The value written for local cell `(lx, ly)` of a room (line 256):
`isDoorway ? 2 : (isWall ? 1 : 0)`. -/
def cellValue (r : Room) (lx ly : ℕ) : ℕ :=
  if isDoorwayCell r (r.x + lx) (r.y + ly) then 2
  else if lx = 0 ∨ lx = r.width - 1 ∨ ly = 0 ∨ ly = r.height - 1 then 1
  else 0

/-- One iteration of the inner loops of `buildTilemap` (lines 239-257): the
bounds check `0 ≤ worldX < width && 0 ≤ worldY < height`, then the write.
A write at a non-integer coordinate (possible only for the spawn room of an
odd-sized grid, whose `x` or `y` is a half-integer) targets a non-integer JS
array key and leaves every integer cell unchanged; the `.den = 1` guards
model exactly that. -/
def stampCell (W H : ℕ) (r : Room) (m : Tilemap) (lx ly : ℕ) : Tilemap :=
  let wx : ℚ := r.x + lx
  let wy : ℚ := r.y + ly
  if 0 ≤ wx ∧ wx < W ∧ 0 ≤ wy ∧ wy < H ∧ wx.den = 1 ∧ wy.den = 1 then
    writeCell m wy.num wx.num (cellValue r lx ly)
  else m

/-- The per-room double loop of `buildTilemap` (`y` outer, `x` inner). -/
def stampRoom (W H : ℕ) (m : Tilemap) (r : Room) : Tilemap :=
  (List.range r.height).foldl
    (fun m1 ly => (List.range r.width).foldl
      (fun m2 lx => stampCell W H r m2 lx ly) m1) m

/-- `buildTilemap()` (lines 226-263): all cells 0, then every room stamped in
room order. -/
def buildTilemap (W H : ℕ) (rooms : List Room) : Tilemap :=
  rooms.foldl (stampRoom W H) (fun _ _ => 0)

/-- The generator output (the object literal of lines 29-35). -/
structure World where
  rooms : List Room
  connections : List Connection
  tilemap : Tilemap
  playerStart : ℚ × ℚ
  abilityLocations : List (String × (ℚ × ℚ))

/-- `generate()` (lines 16-36): room graph, ability gates, geometries,
population, then the assembled world (`playerStart: this.rooms[0].center`). -/
def generate (o : Oracle) (w h : ℕ) : World :=
  let st := generateRoomGraph o w h (targetCount o)
  let pa := placeAbilitiesLoop st.rooms 0 []
  let rooms2 := gateFrom o pa.2.2 0 pa.1
  let rooms3 := generateRoomGeometries st.connections rooms2
  let rooms4 := populateFrom o 0 rooms3
  { rooms := rooms4,
    connections := st.connections,
    tilemap := buildTilemap w h rooms4,
    playerStart := rooms4.headI.center,
    abilityLocations := pa.2.1 }

/-- A concrete valid oracle on which every placement attempt fails (every
candidate overlaps the spawn room): the branch offset is always `(6, 0)`
(realised by `angle = 0`, `distance = 6`), so the candidate sits 6 cells right
of the spawn room's corner, inside its padded box.  The generated world is
the spawn room alone. -/
def oracle0 : Oracle where
  numRoomsR := 0
  parentR := fun _ _ => 0
  cosDist := fun _ _ => 6
  sinDist := fun _ _ => 0
  widthR := fun _ _ => 0
  heightR := fun _ _ => 0
  secretR := fun _ _ => 1/2
  gateChanceR := fun _ => 0
  gatePickR := fun _ => 0
  enemyCountR := fun _ => 0
  enemyXR := fun _ _ => 0
  enemyYR := fun _ _ => 0
  enemyTypeR := fun _ _ => 0
  itemChanceR := fun _ => 1/2

/-- A concrete valid oracle producing (for a 60×40 grid) the four rooms
`spawn (30,20,8,6)`, `1: (30,28,6,4)`, `2: (30,12,6,4)`, `3: (22,20,6,4)`
(offsets `(0,8)`, `(0,-8)`, `(-8,0)` from the spawn room, realised by
`distance = 8` and angles `π/2`, `3π/2`, `π`), after which every further
placement fails as with `oracle0`.  No room of type `ability` is ever
placed, yet the gating loop still fires for room index 3. -/
def oracleA : Oracle where
  numRoomsR := 0
  parentR := fun _ _ => 0
  cosDist := fun i _ => if i = 3 then -8 else if i ≤ 2 then 0 else 6
  sinDist := fun i _ => if i = 1 then 8 else if i = 2 then -8 else 0
  widthR := fun _ _ => 0
  heightR := fun _ _ => 0
  secretR := fun _ _ => 1/2
  gateChanceR := fun _ => 0
  gatePickR := fun _ => 0
  enemyCountR := fun _ => 0
  enemyXR := fun _ _ => 0
  enemyYR := fun _ _ => 0
  enemyTypeR := fun _ _ => 0
  itemChanceR := fun _ => 1/2

/-- A concrete valid oracle producing (for a 60×40 grid) the three rooms
`spawn (30,20,8,6)`, `1: (30,28,6,4)` (child of the spawn room, offset
`(0,8)`), and `2: (38,28,6,4)` (child of room 1, offset `(8,0)`), after which
every further placement fails.  Rooms 0 and 2 end up with a gap of exactly
2 cells on the y axis and abutting footprints on the x axis, so their boxes
expanded by 2 on all sides intersect. -/
def oracleB : Oracle where
  numRoomsR := 0
  parentR := fun i _ => if i = 2 then 1/2 else 0
  cosDist := fun i _ => if i = 1 then 0 else if i = 2 then 8 else 6
  sinDist := fun i _ => if i = 1 then 8 else 0
  widthR := fun _ _ => 0
  heightR := fun _ _ => 0
  secretR := fun _ _ => 1/2
  gateChanceR := fun _ => 0
  gatePickR := fun _ => 0
  enemyCountR := fun _ => 0
  enemyXR := fun _ _ => 0
  enemyYR := fun _ _ => 0
  enemyTypeR := fun _ _ => 0
  itemChanceR := fun _ => 1/2

/-- The boxes of two rooms, each expanded by 2 cells on all sides (the
spec's reading of the padding), intersect: the claimed invariant of the
non-overlap claim, which the code does not in fact establish. -/
def bothPaddedIntersect (a b : Room) : Bool :=
  decide (a.x - 2 < b.x + b.width + 2) && decide (b.x - 2 < a.x + a.width + 2) &&
  decide (a.y - 2 < b.y + b.height + 2) && decide (b.y - 2 < a.y + a.height + 2)

/-- Reachability from room 0 along the undirected edge set described by the
connection records: the set of room ids a breadth-first traversal over
`connections` starting at room 0 visits. -/
inductive Reaches (conns : List Connection) : ℕ → Prop where
  | start : Reaches conns 0
  | step : ∀ a b, Reaches conns a →
      (∃ c ∈ conns, (c.«from» = a ∧ c.«to» = b) ∨ (c.«from» = b ∧ c.«to» = a)) →
      Reaches conns b

/-- The core of a room: the fields fixed at placement time, which the later
pipeline stages (`placeAbilityGates`, `generateRoomGeometries`,
`populateWorld`) never modify. -/
def core (r : Room) : ℕ × ℚ × ℚ × ℕ × ℕ × RoomType × (ℚ × ℚ) × List ℕ :=
  (r.id, r.x, r.y, r.width, r.height, r.type, r.center, r.connections)

/-- Integer cell `(cy, cx)` lies in the footprint of some room of the list
(at integer local offsets; a room whose coordinates are not integers covers
no integer cell). -/
def CoveredBy (rooms : List Room) (cy cx : ℤ) : Prop :=
  ∃ r ∈ rooms, ∃ lx ly : ℕ, lx < r.width ∧ ly < r.height ∧
    r.x + (lx : ℚ) = (cx : ℚ) ∧ r.y + (ly : ℚ) = (cy : ℚ)

/-- Integer cell `(cy, cx)` lies on the border wall ring of room `r`. -/
def OnBorderRing (r : Room) (cy cx : ℤ) : Prop :=
  ∃ lx ly : ℕ, lx < r.width ∧ ly < r.height ∧
    r.x + (lx : ℚ) = (cx : ℚ) ∧ r.y + (ly : ℚ) = (cy : ℚ) ∧
    (lx = 0 ∨ lx = r.width - 1 ∨ ly = 0 ∨ ly = r.height - 1)

/-- The loop invariant of `generateRoomGraph`, after all room indices below
`i` have been processed (grid `w × h`).  It packages: the spawn room's fixed
fields at position 0; id ordering and bounds; the room count bound; the
edge-list/per-room-list correspondence (each room's `connections` lists
exactly the `to` endpoints of the connection records having it as `from`);
reachability of every room from room 0; pairwise success of the overlap
test; the width/height ranges; and integrality of all non-spawn
coordinates. -/
structure Inv (w h i : ℕ) (st : GenState) : Prop where
  pos : 1 ≤ i
  len_pos : 0 < st.rooms.length
  len_le : st.rooms.length ≤ i
  room0 : ∀ r, st.rooms[0]? = some r →
    r.id = 0 ∧ r.x = (w : ℚ)/2 ∧ r.y = (h : ℚ)/2 ∧ r.width = 8 ∧
    r.height = 6 ∧ r.type = RoomType.spawn ∧ r.center = (0, 0)
  ids_lt : ∀ r ∈ st.rooms, r.id < i
  ids_sorted : List.Pairwise (· < ·) (st.rooms.map Room.id)
  conns_to : st.connections.map (fun c => c.«to») = (st.rooms.map Room.id).drop 1
  from_lt : ∀ c ∈ st.connections, c.«from» < c.«to»
  from_mem : ∀ c ∈ st.connections, c.«from» ∈ st.rooms.map Room.id
  mirror : ∀ r ∈ st.rooms, r.connections =
    (st.connections.filter (fun c => c.«from» = r.id)).map (fun c => c.«to»)
  reach : ∀ r ∈ st.rooms, Reaches st.connections r.id
  sep : List.Pairwise (fun a b => overlapsPadded a b = false) st.rooms
  dims : ∀ r ∈ st.rooms, 6 ≤ r.width ∧ r.width ≤ 11 ∧ 4 ≤ r.height ∧ r.height ≤ 7
  integ : ∀ r ∈ st.rooms, r.id ≠ 0 → r.x.den = 1 ∧ r.y.den = 1
  spawn_xy : ∀ r ∈ st.rooms, r.id = 0 → r.x = (w : ℚ)/2 ∧ r.y = (h : ℚ)/2

/-! Basic facts about the random-draw model. -/

theorem randNat_lt {q : ℚ} {n : ℕ} (hq : unitR q) (hn : 0 < n) :
    randNat q n < n := by
  unfold randNat
  have h0 : (0 : ℚ) ≤ q * n := mul_nonneg hq.1 (by positivity)
  have h1 : ⌊q * (n : ℚ)⌋ < (n : ℤ) := by
    apply Int.floor_lt.mpr
    have : q * (n : ℚ) < 1 * n := by
      apply mul_lt_mul_of_pos_right hq.2
      exact_mod_cast hn
    push_cast
    linarith
  have h2 : 0 ≤ ⌊q * (n : ℚ)⌋ := Int.floor_nonneg.mpr h0
  omega

theorem unitR_zero : unitR 0 := by constructor <;> norm_num

theorem unitR_half : unitR (1/2) := by constructor <;> norm_num

theorem oracle0_valid : oracle0.Valid := by
  constructor <;> intros <;> norm_num [oracle0, unitR]

theorem oracleA_valid : oracleA.Valid := by
  constructor <;> intros <;> simp only [oracleA] <;>
    ((try split_ifs) <;> norm_num [unitR])

theorem oracleB_valid : oracleB.Valid := by
  constructor <;> intros <;> simp only [oracleB] <;>
    ((try split_ifs) <;> norm_num [unitR])

set_option maxRecDepth 10000

/-- C1 (code bug witnessed on a concrete run): with the adversarial but
valid random stream `oracleA`, no `ability`-typed room is ever placed
(`abilityLocations` ends up empty, `abilityIndex = 0`), yet the gating loop
still assigns `requiredAbility = 'double_jump'` to room index 3 — the JS
expression `abilities[Math.floor(Math.random() * Math.min(0, 4))]` evaluates
to `abilities[0]` instead of being skipped, so the gate references an ability
that is a key of no `abilityLocations` entry. -/
theorem c1_unplaced_ability_assigned :
    ((generate oracleA 60 40).rooms.getD 3 default).requiredAbility
        = some "double_jump" ∧
    (generate oracleA 60 40).abilityLocations = [] := by
  with_unfolding_all decide

/-- C2 (code bug witnessed on a concrete run): for `generate(60, 40)` the
spawn room's `center` — and hence `playerStart` — is the never-recomputed
initial `{x: 0, y: 0}`, not the pixel centroid `{x: 30*32 + 4*32,
y: 20*32 + 3*32}` the spec asserts. -/
theorem c2_spawn_center_zero :
    (generate oracleA 60 40).playerStart = (0, 0) ∧
    ((generate oracleA 60 40).rooms.getD 0 default).center = (0, 0) ∧
    ((0 : ℚ), (0 : ℚ)) ≠ ((30 * 32 + 4 * 32 : ℚ), (20 * 32 + 3 * 32 : ℚ)) := by
  with_unfolding_all decide

/-- C3 (counterexample to the claim as stated): in the world generated from
`oracleA`, the connection `{from: 0, to: 1}` exists, but room 1's
`connections` list does not contain 0 — the edge is recorded only in the
parent's list, never in the child's, so the two views are not mutual
mirrors. -/
theorem c3_mirror_false :
    ({ «from» := 0, «to» := 1, type := "normal" } : Connection)
        ∈ (generate oracleA 60 40).connections ∧
    ((generate oracleA 60 40).rooms.getD 1 default).id = 1 ∧
    0 ∉ ((generate oracleA 60 40).rooms.getD 1 default).connections := by
  with_unfolding_all decide

/-- C5 (counterexample to the claim as stated): in the world generated from
`oracleB`, the spawn room `(30,20,8,6)` and room 2 `(38,28,6,4)` are
distinct rooms whose boxes expanded by the padding margin 2 on all sides DO
intersect (their footprints are separated by only 2 cells on the y axis and
by 0 cells on the x axis): the accept test adds the padding on one side
only, so it guarantees a 2-cell gap, not the claimed 4-cell gap. -/
theorem c5_both_padded_boxes_intersect :
    ((generate oracleB 60 40).rooms.getD 0 default)
        ∈ (generate oracleB 60 40).rooms ∧
    ((generate oracleB 60 40).rooms.getD 2 default)
        ∈ (generate oracleB 60 40).rooms ∧
    ((generate oracleB 60 40).rooms.getD 0 default).id
        ≠ ((generate oracleB 60 40).rooms.getD 2 default).id ∧
    bothPaddedIntersect ((generate oracleB 60 40).rooms.getD 0 default)
        ((generate oracleB 60 40).rooms.getD 2 default) = true := by
  with_unfolding_all decide

/-- C8 (counterexample to the claim as stated): for an odd grid width the
spawn room's `x = width / 2` is a half-integer, not an integer grid-cell
value: `generate(61, 40)` yields `rooms[0].x = 61/2` (denominator 2). -/
theorem c8_spawn_half_integer :
    ((generate oracle0 61 40).rooms.getD 0 default).x = (61 : ℚ)/2 ∧
    ((generate oracle0 61 40).rooms.getD 0 default).x.den = 2 := by
  with_unfolding_all decide

/-! List helpers. -/

theorem mem_set_cases {α : Type} {l : List α} {k : ℕ} {b a : α}
    (h : a ∈ l.set k b) : a = b ∨ a ∈ l := by
  induction l generalizing k with
  | nil => simp only [List.set_nil] at h; exact Or.inr h
  | cons x xs ih =>
    cases k with
    | zero =>
      simp only [List.set_cons_zero, List.mem_cons] at h
      rcases h with h | h
      · exact Or.inl h
      · exact Or.inr (List.mem_cons_of_mem _ h)
    | succ n =>
      simp only [List.set_cons_succ, List.mem_cons] at h
      rcases h with h | h
      · exact Or.inr (h ▸ List.mem_cons_self _ _)
      · rcases ih h with h' | h'
        · exact Or.inl h'
        · exact Or.inr (List.mem_cons_of_mem _ h')

theorem map_id_set_connections (l : List Room) (k : ℕ) (cs : List ℕ) :
    (l.set k { l.getD k default with connections := cs }).map Room.id
      = l.map Room.id := by
  induction l generalizing k with
  | nil => simp
  | cons x xs ih =>
    cases k with
    | zero =>
      rw [List.set_cons_zero, List.map_cons, List.map_cons]
      rfl
    | succ n =>
      rw [List.set_cons_succ, List.map_cons, List.map_cons]
      exact congrArg (x.id :: ·) (ih n)

theorem getD_mem {α : Type} [Inhabited α] {l : List α} {k : ℕ}
    (hk : k < l.length) : l.getD k default ∈ l := by
  rw [List.getD_eq_getElem l default hk]
  exact List.getElem_mem hk

theorem reaches_extend {conns conns' : List Connection} {n : ℕ}
    (h : Reaches conns n) (sub : ∀ c ∈ conns, c ∈ conns') :
    Reaches conns' n := by
  induction h with
  | start => exact .start
  | step a b _ hex ih =>
    obtain ⟨c, hc, hor⟩ := hex
    exact .step a b ih ⟨c, sub c hc, hor⟩

theorem pairwise_overlap_set {l : List Room} {k : ℕ} {cs : List ℕ}
    (h : l.Pairwise (fun a b => overlapsPadded a b = false)) :
    (l.set k { l.getD k default with connections := cs }).Pairwise
      (fun a b => overlapsPadded a b = false) := by
  induction l generalizing k with
  | nil => simpa using h
  | cons x xs ih =>
    rcases h with _ | ⟨hx, hxs⟩
    cases k with
    | zero =>
      rw [List.set_cons_zero]
      exact List.Pairwise.cons (fun b hb => hx b hb) hxs
    | succ n =>
      rw [List.set_cons_succ]
      refine List.Pairwise.cons (fun b hb => ?_) (ih hxs)
      by_cases hn : n < xs.length
      · rcases mem_set_cases hb with hb | hb
        · subst hb
          have hgd := hx (xs.getD n default) (getD_mem hn)
          exact hgd
        · exact hx b hb
      · rw [List.set_eq_of_length_le (by omega)] at hb
        exact hx b hb

theorem overlapsPadded_symm (a b : Room) :
    overlapsPadded a b = overlapsPadded b a := by
  unfold overlapsPadded
  by_cases h1 : a.x < b.x + b.width + 2 <;>
    by_cases h2 : b.x < a.x + a.width + 2 <;>
      by_cases h3 : a.y < b.y + b.height + 2 <;>
        by_cases h4 : b.y < a.y + a.height + 2 <;>
          simp [h1, h2, h3, h4, gt_iff_lt]

theorem roomsOverlap_eq_false {rooms : List Room} {room : Room}
    (h : roomsOverlap rooms room = false) :
    ∀ other ∈ rooms, overlapsPadded room other = false := by
  intro other hother
  have := List.any_eq_false.mp h other hother
  simpa using this

theorem mem_set_concat {α : Type} {l : List α} {k : ℕ} {b c r : α}
    (hk : k < l.length) (h : r ∈ (l.set k b).concat c) :
    r = c ∨ r = b ∨ ∃ j, j < l.length ∧ j ≠ k ∧ l[j]? = some r := by
  rw [List.concat_eq_append, List.mem_append] at h
  rcases h with h | h
  · rw [List.mem_iff_getElem?] at h
    obtain ⟨j, hj⟩ := h
    rcases eq_or_ne j k with rfl | hjk
    · rw [List.getElem?_set_self hk] at hj
      exact Or.inr (Or.inl (Option.some.inj hj).symm)
    · rw [List.getElem?_set, if_neg (Ne.symm hjk)] at hj
      have hjl : j < l.length := by
        by_contra hc
        rw [List.getElem?_eq_none (by omega)] at hj
        exact Option.noConfusion hj
      exact Or.inr (Or.inr ⟨j, hjl, hjk, hj⟩)
  · simp only [List.mem_singleton] at h
    exact Or.inl h

/-- Preservation of the generation invariant by an accepted placement. -/
theorem inv_acceptRoom {w h i pIdx : ℕ} {st : GenState} {cand : Room}
    (hInv : Inv w h i st) (hp : pIdx < st.rooms.length)
    (hid : cand.id = i)
    (hx : ∃ z : ℤ, cand.x = (z : ℚ)) (hy : ∃ z : ℤ, cand.y = (z : ℚ))
    (hw : 6 ≤ cand.width ∧ cand.width ≤ 11)
    (hh : 4 ≤ cand.height ∧ cand.height ≤ 7)
    (hconn : cand.connections = [])
    (hov : roomsOverlap st.rooms cand = false) :
    Inv w h (i + 1) (acceptRoom i pIdx cand st) := by
  have hpmem : st.rooms.getD pIdx default ∈ st.rooms := getD_mem hp
  have hpelem : st.rooms[pIdx]? = some (st.rooms.getD pIdx default) := by
    rw [List.getD_eq_getElem st.rooms default hp]
    exact List.getElem?_eq_getElem hp
  have hpid_lt : (st.rooms.getD pIdx default).id < i :=
    hInv.ids_lt _ hpmem
  have hfrom_ne : ∀ c ∈ st.connections, c.«from» ≠ i := by
    intro c hc
    obtain ⟨r, hr, hrid⟩ := List.mem_map.mp (hInv.from_mem c hc)
    have := hInv.ids_lt r hr
    omega
  have hid_ne : ∀ j, j < st.rooms.length → j ≠ pIdx → ∀ r,
      st.rooms[j]? = some r → r.id ≠ (st.rooms.getD pIdx default).id := by
    intro j hj hjk r hr
    have hpair := (List.pairwise_iff_getElem).mp hInv.ids_sorted
    have hrj : st.rooms[j] = r := by
      have := List.getElem?_eq_getElem (l := st.rooms) hj
      rw [this] at hr
      exact Option.some.inj hr
    have hpp : st.rooms[pIdx] = st.rooms.getD pIdx default := by
      rw [List.getD_eq_getElem st.rooms default hp]
    have hlm : (st.rooms.map Room.id).length = st.rooms.length :=
      List.length_map _ _
    rcases lt_or_gt_of_ne hjk with hlt | hlt
    · have := hpair j pIdx (by omega) (by omega) hlt
      rw [List.getElem_map, List.getElem_map, hrj, hpp] at this
      omega
    · have := hpair pIdx j (by omega) (by omega) hlt
      rw [List.getElem_map, List.getElem_map, hrj, hpp] at this
      omega
  have hovr := roomsOverlap_eq_false hov
  have hmapid : ((st.rooms.set pIdx
      { st.rooms.getD pIdx default with
        connections := (st.rooms.getD pIdx default).connections ++ [i] }).concat
        { cand with
          center := (cand.x * tileSize + (cand.width * tileSize : ℚ) / 2,
            cand.y * tileSize + (cand.height * tileSize : ℚ) / 2) }).map Room.id
      = st.rooms.map Room.id ++ [i] := by
    rw [List.concat_eq_append, List.map_append, map_id_set_connections]
    simp [hid]
  have hmem_cases : ∀ r ∈ (acceptRoom i pIdx cand st).rooms,
      r = { cand with
          center := (cand.x * tileSize + (cand.width * tileSize : ℚ) / 2,
            cand.y * tileSize + (cand.height * tileSize : ℚ) / 2) } ∨
      r = { st.rooms.getD pIdx default with
          connections := (st.rooms.getD pIdx default).connections ++ [i] } ∨
      ∃ j, j < st.rooms.length ∧ j ≠ pIdx ∧ st.rooms[j]? = some r := by
    intro r hr
    exact mem_set_concat hp hr
  constructor
  case len_pos =>
    simp only [acceptRoom, List.concat_eq_append, List.length_append,
      List.length_set]
    omega
  case len_le =>
    have := hInv.len_le
    simp only [acceptRoom, List.concat_eq_append, List.length_append,
      List.length_set, List.length_singleton]
    omega
  case room0 =>
    intro r hr
    simp only [acceptRoom] at hr
    rw [List.concat_eq_append, List.getElem?_append,
      if_pos (by rw [List.length_set]; exact hInv.len_pos)] at hr
    rw [List.getElem?_set] at hr
    by_cases h0 : pIdx = 0
    · rw [if_pos h0, if_pos (by omega)] at hr
      have heq := Option.some.inj hr
      subst h0
      obtain ⟨h1, h2, h3, h4, h5, h6, h7⟩ := hInv.room0 _ hpelem
      rw [← heq]
      exact ⟨h1, h2, h3, h4, h5, h6, h7⟩
    · rw [if_neg h0] at hr
      exact hInv.room0 r hr
  case ids_lt =>
    intro r hr
    rcases hmem_cases r hr with rfl | rfl | ⟨j, hj, _, hjr⟩
    · simp only [hid]; omega
    · show (st.rooms.getD pIdx default).id < i + 1
      omega
    · have : r ∈ st.rooms := by
        rw [List.mem_iff_getElem?]; exact ⟨j, hjr⟩
      have := hInv.ids_lt r this
      omega
  case ids_sorted =>
    simp only [acceptRoom]
    rw [hmapid, List.pairwise_append]
    refine ⟨hInv.ids_sorted, List.pairwise_singleton _ _, ?_⟩
    intro a ha b hb
    simp only [List.mem_singleton] at hb
    obtain ⟨r, hr, hrid⟩ := List.mem_map.mp ha
    have := hInv.ids_lt r hr
    omega
  case conns_to =>
    simp only [acceptRoom]
    rw [List.concat_eq_append, List.map_append, hInv.conns_to, hmapid]
    rw [List.drop_append_of_le_length (by have := hInv.len_pos; simp; omega)]
    simp
  case from_lt =>
    intro c hc
    simp only [acceptRoom, List.concat_eq_append, List.mem_append,
      List.mem_singleton] at hc
    rcases hc with hc | rfl
    · exact hInv.from_lt c hc
    · show (st.rooms.getD pIdx default).id < i
      exact hpid_lt
  case from_mem =>
    intro c hc
    simp only [acceptRoom, List.concat_eq_append, List.mem_append,
      List.mem_singleton] at hc
    simp only [acceptRoom]
    rw [hmapid]
    rcases hc with hc | rfl
    · exact List.mem_append_left _ (hInv.from_mem c hc)
    · exact List.mem_append_left _ (List.mem_map.mpr ⟨_, hpmem, rfl⟩)
  case mirror =>
    intro r hr
    have hfilter : ∀ n : ℕ, n ≠ i →
        ((st.connections.concat
            (⟨(st.rooms.getD pIdx default).id, i, "normal"⟩ : Connection)).filter
              (fun c => c.«from» = n))
          = if n = (st.rooms.getD pIdx default).id
            then st.connections.filter (fun c => c.«from» = n) ++
              [(⟨(st.rooms.getD pIdx default).id, i, "normal"⟩ : Connection)]
            else st.connections.filter (fun c => c.«from» = n) := by
      intro n hn
      rw [List.concat_eq_append, List.filter_append]
      by_cases hcase : n = (st.rooms.getD pIdx default).id
      · rw [if_pos hcase]
        congr 1
        simp [hcase]
      · rw [if_neg hcase]
        have hne : ¬ (st.rooms[pIdx]?.getD default).id = n := by
          rw [← List.getD_eq_getElem?_getD]
          exact fun hc => hcase hc.symm
        simp [hne]
    rcases hmem_cases r hr with rfl | rfl | ⟨j, hj, hjne, hjr⟩
    · show cand.connections = _
      rw [hconn]
      symm
      rw [List.map_eq_nil_iff]
      rw [List.filter_eq_nil_iff]
      intro c hc
      simp only [acceptRoom, List.concat_eq_append, List.mem_append,
        List.mem_singleton] at hc
      rcases hc with hc | rfl
      · have := hfrom_ne c hc
        simpa [hid] using this
      · have : (st.rooms.getD pIdx default).id ≠ i := by omega
        simpa [hid] using this
    · show (st.rooms.getD pIdx default).connections ++ [i] = _
      have hpne : (st.rooms.getD pIdx default).id ≠ i := by omega
      simp only [acceptRoom]
      rw [hfilter _ hpne, if_pos rfl, List.map_append,
        ← hInv.mirror _ hpmem]
      simp
    · have hrmem : r ∈ st.rooms := List.mem_iff_getElem?.mpr ⟨j, hjr⟩
      have hrne : r.id ≠ i := by have := hInv.ids_lt r hrmem; omega
      have hrnp : r.id ≠ (st.rooms.getD pIdx default).id :=
        hid_ne j hj hjne r hjr
      simp only [acceptRoom]
      rw [hfilter _ hrne, if_neg hrnp]
      exact hInv.mirror r hrmem
  case reach =>
    intro r hr
    have hsub : ∀ c ∈ st.connections,
        c ∈ (acceptRoom i pIdx cand st).connections := by
      intro c hc
      simp only [acceptRoom, List.concat_eq_append, List.mem_append]
      exact Or.inl hc
    have hnewc : (⟨(st.rooms.getD pIdx default).id, i, "normal"⟩ : Connection)
        ∈ (acceptRoom i pIdx cand st).connections := by
      simp [acceptRoom]
    rcases hmem_cases r hr with rfl | rfl | ⟨j, hj, _, hjr⟩
    · have hpr : Reaches (acceptRoom i pIdx cand st).connections
          (st.rooms.getD pIdx default).id :=
        reaches_extend (hInv.reach _ hpmem) hsub
      show Reaches _ cand.id
      rw [hid]
      exact .step _ _ hpr ⟨_, hnewc, Or.inl ⟨rfl, rfl⟩⟩
    · exact reaches_extend
        (hInv.reach (st.rooms.getD pIdx default) hpmem) hsub
    · exact reaches_extend (hInv.reach r (List.mem_iff_getElem?.mpr ⟨j, hjr⟩)) hsub
  case sep =>
    simp only [acceptRoom]
    rw [List.concat_eq_append, List.pairwise_append]
    refine ⟨pairwise_overlap_set hInv.sep, List.pairwise_singleton _ _, ?_⟩
    intro a ha b hb
    simp only [List.mem_singleton] at hb
    subst hb
    rw [overlapsPadded_symm]
    rcases mem_set_cases ha with rfl | ha'
    · exact hovr (st.rooms.getD pIdx default) hpmem
    · exact hovr a ha'
  case dims =>
    intro r hr
    rcases hmem_cases r hr with rfl | rfl | ⟨j, hj, _, hjr⟩
    · exact ⟨hw.1, hw.2, hh.1, hh.2⟩
    · exact hInv.dims (st.rooms.getD pIdx default) hpmem
    · exact hInv.dims r (List.mem_iff_getElem?.mpr ⟨j, hjr⟩)
  case integ =>
    intro r hr
    rcases hmem_cases r hr with rfl | rfl | ⟨j, hj, _, hjr⟩
    · intro _
      obtain ⟨zx, hzx⟩ := hx
      obtain ⟨zy, hzy⟩ := hy
      constructor
      · show cand.x.den = 1
        rw [hzx]
        exact Rat.den_intCast zx
      · show cand.y.den = 1
        rw [hzy]
        exact Rat.den_intCast zy
    · exact hInv.integ (st.rooms.getD pIdx default) hpmem
    · exact hInv.integ r (List.mem_iff_getElem?.mpr ⟨j, hjr⟩)
  case pos =>
    have := hInv.pos
    omega
  case spawn_xy =>
    intro r hr
    rcases hmem_cases r hr with rfl | rfl | ⟨j, hj, _, hjr⟩
    · intro h0
      have hpos := hInv.pos
      rw [hid] at h0
      omega
    · intro h0
      exact hInv.spawn_xy (st.rooms.getD pIdx default) hpmem h0
    · exact hInv.spawn_xy r (List.mem_iff_getElem?.mpr ⟨j, hjr⟩)

theorem inv_weaken {w h i j : ℕ} {st : GenState} (hInv : Inv w h i st)
    (hij : i ≤ j) : Inv w h j st := by
  obtain ⟨p1, l1, l2, r0, il, is, ct, fl, fm, mi, re, se, di, it, sx⟩ := hInv
  exact ⟨le_trans p1 hij, l1, le_trans l2 hij, r0,
    fun r hr => lt_of_lt_of_le (il r hr) hij,
    is, ct, fl, fm, mi, re, se, di, it, sx⟩

theorem inv_attemptPlace {o : Oracle} {w h total i attempt : ℕ}
    {st st' : GenState} (hV : o.Valid) (hInv : Inv w h i st)
    (hsucc : attemptPlace o total i attempt st = some st') :
    Inv w h (i + 1) st' := by
  simp only [attemptPlace] at hsucc
  split at hsucc
  · exact absurd hsucc (by simp)
  · injection hsucc with hst
    subst hst
    rename_i hov
    have hw6 := randNat_lt (hV.widthR01 i attempt) (by norm_num : (0:ℕ) < 6)
    have hh4 := randNat_lt (hV.heightR01 i attempt) (by norm_num : (0:ℕ) < 4)
    exact inv_acceptRoom hInv
      (randNat_lt (hV.parentR01 i attempt) hInv.len_pos)
      rfl ⟨_, rfl⟩ ⟨_, rfl⟩
      ⟨by show 6 ≤ 6 + randNat (o.widthR i attempt) 6; omega,
        by show 6 + randNat (o.widthR i attempt) 6 ≤ 11; omega⟩
      ⟨by show 4 ≤ 4 + randNat (o.heightR i attempt) 4; omega,
        by show 4 + randNat (o.heightR i attempt) 4 ≤ 7; omega⟩
      rfl (Bool.not_eq_true _ |>.mp hov)

theorem inv_placeRoomLoop {o : Oracle} {w h total i : ℕ} {st : GenState}
    (hV : o.Valid) (hInv : Inv w h i st) :
    ∀ attempt fuel, Inv w h (i + 1) (placeRoomLoop o total i st attempt fuel) := by
  intro attempt fuel
  induction fuel generalizing attempt with
  | zero => exact inv_weaken hInv (by omega)
  | succ n ih =>
    simp only [placeRoomLoop]
    split
    · rename_i st' hsome
      exact inv_attemptPlace hV hInv hsome
    · exact ih (attempt + 1)

theorem inv_init (w h : ℕ) :
    Inv w h 1 { rooms := [mkSpawnRoom w h], connections := [] } := by
  constructor
  case pos => omega
  case spawn_xy =>
    intro r hr
    simp only [List.mem_singleton] at hr
    subst hr
    intro _
    exact ⟨rfl, rfl⟩
  case len_pos => simp
  case len_le => simp
  case room0 =>
    intro r hr
    simp only [List.getElem?_cons_zero] at hr
    have := Option.some.inj hr
    subst this
    refine ⟨rfl, rfl, rfl, rfl, rfl, rfl, rfl⟩
  case ids_lt =>
    intro r hr
    simp only [List.mem_singleton] at hr
    subst hr
    norm_num [mkSpawnRoom]
  case ids_sorted => simp
  case conns_to => simp
  case from_lt => intro c hc; simp at hc
  case from_mem => intro c hc; simp at hc
  case mirror =>
    intro r hr
    simp only [List.mem_singleton] at hr
    subst hr
    simp [mkSpawnRoom]
  case reach =>
    intro r hr
    simp only [List.mem_singleton] at hr
    subst hr
    show Reaches [] (mkSpawnRoom w h).id
    have : (mkSpawnRoom w h).id = 0 := rfl
    rw [this]
    exact .start
  case sep => simp
  case dims =>
    intro r hr
    simp only [List.mem_singleton] at hr
    subst hr
    norm_num [mkSpawnRoom]
  case integ =>
    intro r hr
    simp only [List.mem_singleton] at hr
    subst hr
    intro hne
    exact absurd rfl hne

theorem inv_range'_foldl (o : Oracle) (w h total : ℕ) (hV : o.Valid) :
    ∀ n i0 st, Inv w h i0 st →
      Inv w h (i0 + n)
        ((List.range' i0 n).foldl
          (fun st i => placeRoomLoop o total i st 0 50) st) := by
  intro n
  induction n with
  | zero =>
    intro i0 st hInv
    simpa using hInv
  | succ m ih =>
    intro i0 st hInv
    rw [List.range'_succ, List.foldl_cons]
    have h1 : Inv w h (i0 + 1) (placeRoomLoop o total i0 st 0 50) :=
      inv_placeRoomLoop hV hInv 0 50
    exact inv_weaken (ih (i0 + 1) _ h1) (by omega)

/-- The generation invariant holds of the completed room graph. -/
theorem inv_generateRoomGraph (o : Oracle) (w h total : ℕ) (hV : o.Valid) :
    Inv w h (1 + (total - 1)) (generateRoomGraph o w h total) := by
  unfold generateRoomGraph
  exact inv_range'_foldl o w h total hV (total - 1) 1 _ (inv_init w h)

/-! The later pipeline stages preserve the room cores. -/

theorem core_fields {r s : Room} (h : core r = core s) :
    r.id = s.id ∧ r.x = s.x ∧ r.y = s.y ∧ r.width = s.width ∧
    r.height = s.height ∧ r.type = s.type ∧ r.center = s.center ∧
    r.connections = s.connections := by
  simpa [core, Prod.mk.injEq] using h

theorem placeAbilitiesLoop_map_core :
    ∀ (rs : List Room) (idx : ℕ) (locs : List (String × (ℚ × ℚ))),
      (placeAbilitiesLoop rs idx locs).1.map core = rs.map core := by
  intro rs
  induction rs with
  | nil => intro idx locs; rfl
  | cons r rs ih =>
    intro idx locs
    simp only [placeAbilitiesLoop]
    split
    · simp only [List.map_cons, ih]
      rfl
    · simp only [List.map_cons, ih]

theorem gateFrom_map_core (o : Oracle) (ai : ℕ) :
    ∀ (i : ℕ) (rs : List Room), (gateFrom o ai i rs).map core = rs.map core := by
  intro i rs
  induction rs generalizing i with
  | nil => rfl
  | cons r rs ih =>
    simp only [gateFrom, List.map_cons, ih]
    congr 1
    split
    · rfl
    · rfl

theorem geometries_map_core (conns : List Connection) (rooms : List Room) :
    (generateRoomGeometries conns rooms).map core = rooms.map core := by
  unfold generateRoomGeometries
  rw [List.map_map]
  exact List.map_congr_left fun r _ => rfl

theorem populateFrom_map_core (o : Oracle) :
    ∀ (i : ℕ) (rs : List Room), (populateFrom o i rs).map core = rs.map core := by
  intro i rs
  induction rs generalizing i with
  | nil => rfl
  | cons r rs ih =>
    simp only [populateFrom, List.map_cons, ih]
    rfl

theorem populateFrom_mem (o : Oracle) :
    ∀ (i : ℕ) (rs : List Room) (r : Room), r ∈ populateFrom o i rs →
      ∃ r0 ∈ rs, core r = core r0 ∧ r.doorways = r0.doorways := by
  intro i rs
  induction rs generalizing i with
  | nil => intro r hr; simp [populateFrom] at hr
  | cons a rs ih =>
    intro r hr
    simp only [populateFrom, List.mem_cons] at hr
    rcases hr with rfl | hr
    · exact ⟨a, List.mem_cons_self a rs, rfl, rfl⟩
    · obtain ⟨r0, h0, hc, hd⟩ := ih (i + 1) r hr
      exact ⟨r0, List.mem_cons_of_mem a h0, hc, hd⟩

theorem geometries_mem (conns : List Connection) (rooms : List Room) (r : Room)
    (hr : r ∈ generateRoomGeometries conns rooms) :
    ∃ r0 ∈ rooms, core r = core r0 ∧ r.doorways = roomDoorways conns r0 := by
  unfold generateRoomGeometries at hr
  obtain ⟨r0, h0, rfl⟩ := List.mem_map.mp hr
  exact ⟨r0, h0, rfl, rfl⟩

theorem roomDoorways_anchor (conns : List Connection) (r : Room) :
    ∀ d ∈ roomDoorways conns r,
      d.x = r.x + ((r.width / 2 : ℕ) : ℚ) ∧
      d.y = r.y + ((r.height / 2 : ℕ) : ℚ) := by
  intro d hd
  unfold roomDoorways at hd
  obtain ⟨c, _, rfl⟩ := List.mem_map.mp hd
  exact ⟨rfl, rfl⟩

theorem generate_connections (o : Oracle) (w h : ℕ) :
    (generate o w h).connections
      = (generateRoomGraph o w h (targetCount o)).connections := rfl

theorem generate_rooms_map_core (o : Oracle) (w h : ℕ) :
    (generate o w h).rooms.map core
      = (generateRoomGraph o w h (targetCount o)).rooms.map core := by
  show (populateFrom o 0 (generateRoomGeometries
      (generateRoomGraph o w h (targetCount o)).connections
      (gateFrom o
        (placeAbilitiesLoop (generateRoomGraph o w h (targetCount o)).rooms 0 []).2.2
        0
        (placeAbilitiesLoop
          (generateRoomGraph o w h (targetCount o)).rooms 0 []).1))).map core = _
  rw [populateFrom_map_core, geometries_map_core, gateFrom_map_core,
    placeAbilitiesLoop_map_core]

theorem generate_mem_core (o : Oracle) (w h : ℕ) (r : Room)
    (hr : r ∈ (generate o w h).rooms) :
    ∃ r0 ∈ (generateRoomGraph o w h (targetCount o)).rooms, core r = core r0 := by
  have hmap := generate_rooms_map_core o w h
  have hmem : core r ∈ (generate o w h).rooms.map core :=
    List.mem_map_of_mem core hr
  rw [hmap] at hmem
  obtain ⟨r0, h0, hc⟩ := List.mem_map.mp hmem
  exact ⟨r0, h0, hc.symm⟩

theorem generate_doorways (o : Oracle) (w h : ℕ) (r : Room)
    (hr : r ∈ (generate o w h).rooms) :
    ∀ d ∈ r.doorways,
      d.x = r.x + ((r.width / 2 : ℕ) : ℚ) ∧
      d.y = r.y + ((r.height / 2 : ℕ) : ℚ) := by
  intro d hd
  have hr' : r ∈ populateFrom o 0 (generateRoomGeometries
      (generateRoomGraph o w h (targetCount o)).connections
      (gateFrom o
        (placeAbilitiesLoop (generateRoomGraph o w h (targetCount o)).rooms 0 []).2.2
        0
        (placeAbilitiesLoop
          (generateRoomGraph o w h (targetCount o)).rooms 0 []).1)) := hr
  obtain ⟨r0, h0, hc0, hd0⟩ := populateFrom_mem o 0 _ r hr'
  obtain ⟨r1, _, hc1, hd1⟩ := geometries_mem _ _ r0 h0
  have hxw := core_fields (hc0.trans hc1)
  rw [hd0, hd1] at hd
  obtain ⟨hdx, hdy⟩ := roomDoorways_anchor _ r1 d hd
  rw [hdx, hdy, hxw.2.1, hxw.2.2.1, hxw.2.2.2.1, hxw.2.2.2.2.1]
  exact ⟨rfl, rfl⟩

/-! Characterisation of the composed tilemap. -/

theorem stampCell_cases (W H : ℕ) (r : Room) (m : Tilemap) (lx ly : ℕ)
    (cy cx : ℤ) :
    stampCell W H r m lx ly cy cx = m cy cx ∨
    (r.x + (lx : ℚ) = (cx : ℚ) ∧ r.y + (ly : ℚ) = (cy : ℚ) ∧
      stampCell W H r m lx ly cy cx = cellValue r lx ly) := by
  simp only [stampCell]
  split
  · rename_i hcond
    obtain ⟨hx0, hxW, hy0, hyH, hxden, hyden⟩ := hcond
    simp only [writeCell]
    by_cases hc : cy = (r.y + (ly : ℚ)).num ∧ cx = (r.x + (lx : ℚ)).num
    · right
      have hx1 : (((r.x + (lx : ℚ)).num : ℤ) : ℚ) = r.x + (lx : ℚ) :=
        (Rat.den_eq_one_iff _).mp hxden
      have hy1 : (((r.y + (ly : ℚ)).num : ℤ) : ℚ) = r.y + (ly : ℚ) :=
        (Rat.den_eq_one_iff _).mp hyden
      refine ⟨?_, ?_, ?_⟩
      · rw [hc.2, hx1]
      · rw [hc.1, hy1]
      · rw [if_pos hc]
    · left
      rw [if_neg hc]
  · left
    rfl

theorem foldl_stampCell_cases (W H : ℕ) (r : Room) (ly : ℕ) :
    ∀ (L : List ℕ) (m : Tilemap) (cy cx : ℤ),
      (L.foldl (fun m2 lx => stampCell W H r m2 lx ly) m) cy cx = m cy cx ∨
      ∃ lx ∈ L, r.x + (lx : ℚ) = (cx : ℚ) ∧ r.y + (ly : ℚ) = (cy : ℚ) ∧
        (L.foldl (fun m2 lx => stampCell W H r m2 lx ly) m) cy cx
          = cellValue r lx ly := by
  intro L
  induction L with
  | nil =>
    intro m cy cx
    left
    rfl
  | cons a L ih =>
    intro m cy cx
    rw [List.foldl_cons]
    rcases ih (stampCell W H r m a ly) cy cx with hcase | ⟨lx, hlx, h1, h2, h3⟩
    · rcases stampCell_cases W H r m a ly cy cx with h' | ⟨h1, h2, h3⟩
      · left
        rw [hcase, h']
      · right
        exact ⟨a, List.mem_cons_self a L, h1, h2, hcase.trans h3⟩
    · right
      exact ⟨lx, List.mem_cons_of_mem a hlx, h1, h2, h3⟩

theorem foldl_stampRow_cases (W H : ℕ) (r : Room) :
    ∀ (Ly : List ℕ) (m : Tilemap) (cy cx : ℤ),
      (Ly.foldl (fun m1 ly => (List.range r.width).foldl
        (fun m2 lx => stampCell W H r m2 lx ly) m1) m) cy cx = m cy cx ∨
      ∃ lx ly : ℕ, lx < r.width ∧ ly ∈ Ly ∧
        r.x + (lx : ℚ) = (cx : ℚ) ∧ r.y + (ly : ℚ) = (cy : ℚ) ∧
        (Ly.foldl (fun m1 ly => (List.range r.width).foldl
          (fun m2 lx => stampCell W H r m2 lx ly) m1) m) cy cx
            = cellValue r lx ly := by
  intro Ly
  induction Ly with
  | nil =>
    intro m cy cx
    left
    rfl
  | cons a Ly ih =>
    intro m cy cx
    rw [List.foldl_cons]
    rcases ih _ cy cx with hcase | ⟨lx, ly, h0, h1, h2, h3, h4⟩
    · rcases foldl_stampCell_cases W H r a (List.range r.width) m cy cx with
        h' | ⟨lx, hlx, h1, h2, h3⟩
      · left
        rw [hcase, h']
      · right
        exact ⟨lx, a, List.mem_range.mp hlx, List.mem_cons_self a Ly, h1, h2,
          hcase.trans h3⟩
    · right
      exact ⟨lx, ly, h0, List.mem_cons_of_mem a h1, h2, h3, h4⟩

theorem stampRoom_cases (W H : ℕ) (r : Room) (m : Tilemap) (cy cx : ℤ) :
    stampRoom W H m r cy cx = m cy cx ∨
    ∃ lx ly : ℕ, lx < r.width ∧ ly < r.height ∧
      r.x + (lx : ℚ) = (cx : ℚ) ∧ r.y + (ly : ℚ) = (cy : ℚ) ∧
      stampRoom W H m r cy cx = cellValue r lx ly := by
  rcases foldl_stampRow_cases W H r (List.range r.height) m cy cx with
    h | ⟨lx, ly, h0, h1, h2, h3, h4⟩
  · left
    exact h
  · right
    exact ⟨lx, ly, h0, List.mem_range.mp h1, h2, h3, h4⟩

theorem foldl_stampRoom_cases (W H : ℕ) :
    ∀ (rooms : List Room) (m : Tilemap) (cy cx : ℤ),
      (rooms.foldl (stampRoom W H) m) cy cx = m cy cx ∨
      ∃ r ∈ rooms, ∃ lx ly : ℕ, lx < r.width ∧ ly < r.height ∧
        r.x + (lx : ℚ) = (cx : ℚ) ∧ r.y + (ly : ℚ) = (cy : ℚ) ∧
        (rooms.foldl (stampRoom W H) m) cy cx = cellValue r lx ly := by
  intro rooms
  induction rooms with
  | nil =>
    intro m cy cx
    left
    rfl
  | cons a rooms ih =>
    intro m cy cx
    rw [List.foldl_cons]
    rcases ih (stampRoom W H m a) cy cx with hcase | ⟨r, hr, lx, ly, h0, h1, h2, h3, h4⟩
    · rcases stampRoom_cases W H a m cy cx with h' | ⟨lx, ly, h0, h1, h2, h3, h4⟩
      · left
        rw [hcase, h']
      · right
        exact ⟨a, List.mem_cons_self a rooms, lx, ly, h0, h1, h2, h3,
          hcase.trans h4⟩
    · right
      exact ⟨r, List.mem_cons_of_mem a hr, lx, ly, h0, h1, h2, h3, h4⟩

theorem buildTilemap_cases (W H : ℕ) (rooms : List Room) (cy cx : ℤ) :
    buildTilemap W H rooms cy cx = 0 ∨
    ∃ r ∈ rooms, ∃ lx ly : ℕ, lx < r.width ∧ ly < r.height ∧
      r.x + (lx : ℚ) = (cx : ℚ) ∧ r.y + (ly : ℚ) = (cy : ℚ) ∧
      buildTilemap W H rooms cy cx = cellValue r lx ly := by
  unfold buildTilemap
  exact foldl_stampRoom_cases W H rooms (fun _ _ => 0) cy cx

theorem cellValue_012 (r : Room) (lx ly : ℕ) :
    cellValue r lx ly = 0 ∨ cellValue r lx ly = 1 ∨ cellValue r lx ly = 2 := by
  unfold cellValue
  split
  · right
    right
    rfl
  · split
    · right
      left
      rfl
    · left
      rfl

theorem cellValue_eq_two {r : Room} {lx ly : ℕ}
    (h : cellValue r lx ly = 2) :
    isDoorwayCell r (r.x + lx) (r.y + ly) = true := by
  unfold cellValue at h
  split at h
  · assumption
  · split at h <;> omega

/-- Two rooms whose footprints share an integer cell pass the padded overlap
test. -/
theorem covers_overlap {a b : Room} {cy cx : ℤ} {lxa lya lxb lyb : ℕ}
    (ha1 : lxa < a.width) (ha2 : lya < a.height)
    (ha3 : a.x + (lxa : ℚ) = (cx : ℚ)) (ha4 : a.y + (lya : ℚ) = (cy : ℚ))
    (hb1 : lxb < b.width) (hb2 : lyb < b.height)
    (hb3 : b.x + (lxb : ℚ) = (cx : ℚ)) (hb4 : b.y + (lyb : ℚ) = (cy : ℚ)) :
    overlapsPadded a b = true := by
  unfold overlapsPadded
  simp only [Bool.and_eq_true, decide_eq_true_eq]
  have hxa : (0 : ℚ) ≤ lxa := by positivity
  have hxb : (0 : ℚ) ≤ lxb := by positivity
  have hya : (0 : ℚ) ≤ lya := by positivity
  have hyb : (0 : ℚ) ≤ lyb := by positivity
  have hwa : (lxa : ℚ) < a.width := by exact_mod_cast ha1
  have hwb : (lxb : ℚ) < b.width := by exact_mod_cast hb1
  have hha : (lya : ℚ) < a.height := by exact_mod_cast ha2
  have hhb : (lyb : ℚ) < b.height := by exact_mod_cast hb2
  refine ⟨⟨⟨?_, ?_⟩, ?_⟩, ?_⟩
  · linarith
  · show b.x < a.x + a.width + 2
    linarith
  · linarith
  · show b.y < a.y + a.height + 2
    linarith

/-- In a pairwise-separated room list, the room covering a given integer cell
is unique. -/
theorem sep_covers_eq {rooms : List Room}
    (hsep : rooms.Pairwise (fun a b => overlapsPadded a b = false))
    {a b : Room} (ha : a ∈ rooms) (hb : b ∈ rooms)
    {cy cx : ℤ} {lxa lya lxb lyb : ℕ}
    (ha1 : lxa < a.width) (ha2 : lya < a.height)
    (ha3 : a.x + (lxa : ℚ) = (cx : ℚ)) (ha4 : a.y + (lya : ℚ) = (cy : ℚ))
    (hb1 : lxb < b.width) (hb2 : lyb < b.height)
    (hb3 : b.x + (lxb : ℚ) = (cx : ℚ)) (hb4 : b.y + (lyb : ℚ) = (cy : ℚ)) :
    a = b := by
  by_contra hne
  have hsym : Symmetric (fun a b : Room => overlapsPadded a b = false) := by
    intro x y hxy
    rw [overlapsPadded_symm]
    exact hxy
  have hfalse := List.Pairwise.forall hsym hsep ha hb hne
  have htrue := covers_overlap ha1 ha2 ha3 ha4 hb1 hb2 hb3 hb4
  rw [htrue] at hfalse
  exact Bool.noConfusion hfalse

theorem overlap_core_congr {a a' b b' : Room} (ha : core a = core a')
    (hb : core b = core b') : overlapsPadded a b = overlapsPadded a' b' := by
  obtain ⟨_, hax, hay, haw, hah, _, _, _⟩ := core_fields ha
  obtain ⟨_, hbx, hby, hbw, hbh, _, _, _⟩ := core_fields hb
  unfold overlapsPadded
  rw [hax, hay, haw, hah, hbx, hby, hbw, hbh]

theorem pairwise_overlap_of_map_core_eq :
    ∀ {l₁ l₂ : List Room}, l₁.map core = l₂.map core →
      l₂.Pairwise (fun a b => overlapsPadded a b = false) →
      l₁.Pairwise (fun a b => overlapsPadded a b = false) := by
  intro l₁
  induction l₁ with
  | nil => intro l₂ _ _; exact List.Pairwise.nil
  | cons a t ih =>
    intro l₂ hmap hp
    cases l₂ with
    | nil => simp at hmap
    | cons b t₂ =>
      simp only [List.map_cons, List.cons.injEq] at hmap
      obtain ⟨hab, ht⟩ := hmap
      rcases hp with _ | ⟨hb, hp₂⟩
      refine List.Pairwise.cons (fun x hx => ?_) (ih ht hp₂)
      have hxcore : core x ∈ t.map core := List.mem_map_of_mem core hx
      rw [ht] at hxcore
      obtain ⟨y, hy, hyc⟩ := List.mem_map.mp hxcore
      rw [overlap_core_congr hab hyc.symm]
      exact hb y hy

theorem generate_inv (o : Oracle) (w h : ℕ) (hV : o.Valid) :
    Inv w h (targetCount o) (generateRoomGraph o w h (targetCount o)) := by
  have h15 : 15 ≤ targetCount o := by unfold targetCount; omega
  exact inv_weaken (inv_generateRoomGraph o w h (targetCount o) hV) (by omega)

/-- C4: for every generated world, every room id occurring in `rooms` is
reachable from room 0 (the spawn room) along the undirected edge set
described by `connections` — the set a breadth-first traversal over
`connections` starting at room 0 visits.  Holds by construction: every
non-spawn room is attached to an already-placed room at creation time. -/
theorem c4_all_rooms_reachable (o : Oracle) (w h : ℕ) (hV : o.Valid) :
    ∀ r ∈ (generate o w h).rooms,
      Reaches (generate o w h).connections r.id := by
  intro r hr
  obtain ⟨r0, h0, hc⟩ := generate_mem_core o w h r hr
  have hid := (core_fields hc).1
  rw [generate_connections, hid]
  exact (generate_inv o w h hV).reach r0 h0

theorem c4_all_rooms_reachable_witness :
    Reaches (generate oracle0 60 40).connections
      ((generate oracle0 60 40).rooms.getD 0 default).id :=
  c4_all_rooms_reachable oracle0 60 40 oracle0_valid _
    (by with_unfolding_all decide)

/-- C3 (amended): the world-level `connections` and the per-room
`connections` lists are a one-directional mirror: every room's list is
exactly the `to` endpoints of the connection records having that room as
`from` (its children, in creation order).  The claimed two-sided mirror
fails: the child never records the parent (see the counterexample). -/
theorem c3_child_lists_parent_edges (o : Oracle) (w h : ℕ) (hV : o.Valid) :
    ∀ r ∈ (generate o w h).rooms,
      r.connections = ((generate o w h).connections.filter
        (fun c => c.«from» = r.id)).map (fun c => c.«to») := by
  intro r hr
  obtain ⟨r0, h0, hc⟩ := generate_mem_core o w h r hr
  obtain ⟨hid, _, _, _, _, _, _, hconn⟩ := core_fields hc
  rw [generate_connections, hid, hconn]
  exact (generate_inv o w h hV).mirror r0 h0

theorem c3_child_lists_parent_edges_witness :
    ((generate oracleA 60 40).rooms.getD 0 default).connections
      = ((generate oracleA 60 40).connections.filter
          (fun c => c.«from»
            = ((generate oracleA 60 40).rooms.getD 0 default).id)).map
            (fun c => c.«to») :=
  c3_child_lists_parent_edges oracleA 60 40 oracleA_valid _
    (by with_unfolding_all decide)

/-- C5 (amended): what the accept test actually guarantees — for every
generated world the rooms are pairwise separated in the sense of the code's
`roomsOverlap` check, i.e. for any two distinct rooms some axis shows a gap
of at least 2 cells between the unpadded footprints (one box expanded by the
padding 2 does not strictly overlap the other).  The claimed stronger
version (both boxes expanded by 2, a 4-cell gap) is refuted by the
counterexample. -/
theorem c5_pairwise_separation (o : Oracle) (w h : ℕ) (hV : o.Valid) :
    (generate o w h).rooms.Pairwise (fun a b => overlapsPadded a b = false) :=
  pairwise_overlap_of_map_core_eq (generate_rooms_map_core o w h)
    (generate_inv o w h hV).sep

theorem c5_pairwise_separation_witness :
    (generate oracleB 60 40).rooms.Pairwise
      (fun a b => overlapsPadded a b = false) :=
  c5_pairwise_separation oracleB 60 40 oracleB_valid

/-- C6: the target room count is `15 + ⌊r·10⌋ ∈ [15, 24]`, and the number
of rooms in the output never exceeds it (each index adds at most one room;
a shortfall can arise only from 50 failed attempts at some index, which is
valid output), so 24 is a hard upper bound. -/
theorem c6_room_count_bounds (o : Oracle) (w h : ℕ) (hV : o.Valid) :
    15 ≤ targetCount o ∧ targetCount o ≤ 24 ∧
    (generate o w h).rooms.length ≤ targetCount o ∧
    (generate o w h).rooms.length ≤ 24 := by
  have hr : randNat o.numRoomsR 10 < 10 :=
    randNat_lt hV.numRoomsR01 (by norm_num)
  have h1 : 15 ≤ targetCount o := by unfold targetCount; omega
  have h2 : targetCount o ≤ 24 := by unfold targetCount; omega
  have hlen : (generate o w h).rooms.length
      = (generateRoomGraph o w h (targetCount o)).rooms.length := by
    have := congrArg List.length (generate_rooms_map_core o w h)
    simpa using this
  have h3 := (generate_inv o w h hV).len_le
  exact ⟨h1, h2, by omega, by omega⟩

theorem c6_room_count_bounds_witness :
    15 ≤ targetCount oracle0 ∧ targetCount oracle0 ≤ 24 ∧
    (generate oracle0 60 40).rooms.length ≤ targetCount oracle0 ∧
    (generate oracle0 60 40).rooms.length ≤ 24 :=
  c6_room_count_bounds oracle0 60 40 oracle0_valid

/-- C7: every cell of the composed tilemap is 0, 1 or 2 (0 initialised,
then per room in order: 2 within Chebyshev distance 1 of one of that room's
doorway anchors, else 1 on the room border, else 0, doorway taking
precedence over wall — the write rule `isDoorway ? 2 : (isWall ? 1 : 0)`),
and any nonzero cell lies in some room's footprint. -/
theorem c7_tilemap_cell_values (o : Oracle) (w h : ℕ) (cy cx : ℤ) :
    ((generate o w h).tilemap cy cx = 0 ∨ (generate o w h).tilemap cy cx = 1 ∨
      (generate o w h).tilemap cy cx = 2) ∧
    ((generate o w h).tilemap cy cx ≠ 0 →
      CoveredBy (generate o w h).rooms cy cx) := by
  have ht : (generate o w h).tilemap
      = buildTilemap w h (generate o w h).rooms := rfl
  rcases buildTilemap_cases w h (generate o w h).rooms cy cx with
    hz | ⟨r, hr, lx, ly, h0, h1, h2, h3, h4⟩
  · rw [ht, hz]
    exact ⟨Or.inl rfl, fun hne => absurd rfl hne⟩
  · constructor
    · rw [ht, h4]
      exact cellValue_012 r lx ly
    · intro _
      exact ⟨r, hr, lx, ly, h0, h1, h2, h3⟩

theorem c7_tilemap_cell_values_witness :
    ((generate oracle0 60 40).tilemap 20 30 = 0 ∨
      (generate oracle0 60 40).tilemap 20 30 = 1 ∨
      (generate oracle0 60 40).tilemap 20 30 = 2) ∧
    CoveredBy (generate oracle0 60 40).rooms 20 30 :=
  ⟨(c7_tilemap_cell_values oracle0 60 40 20 30).1,
   (c7_tilemap_cell_values oracle0 60 40 20 30).2
     (by with_unfolding_all decide)⟩

/-- C8 (amended): when both grid dimensions are even — as in every in-repo
call (`60×40`, default `40×30`) — every room's `x` and `y` are integer
grid-cell values: the spawn room's `width/2` is then an integer, and every
other room's coordinates come out of `Math.floor`.  For an odd dimension
the spawn room's coordinate is a half-integer (see the counterexample). -/
theorem c8_even_grid_integer_coords (o : Oracle) (w h : ℕ) (hV : o.Valid)
    (hw : 2 ∣ w) (hh : 2 ∣ h) :
    ∀ r ∈ (generate o w h).rooms, r.x.den = 1 ∧ r.y.den = 1 := by
  intro r hr
  obtain ⟨r0, h0, hc⟩ := generate_mem_core o w h r hr
  obtain ⟨hid, hx, hy, _⟩ := core_fields hc
  by_cases h0id : r0.id = 0
  · obtain ⟨hsx, hsy⟩ := (generate_inv o w h hV).spawn_xy r0 h0 h0id
    obtain ⟨k, rfl⟩ := hw
    obtain ⟨l, rfl⟩ := hh
    rw [hx, hy, hsx, hsy]
    constructor
    · have hk : ((2 * k : ℕ) : ℚ) / 2 = (k : ℚ) := by push_cast; ring
      rw [hk]
      exact Rat.den_natCast k
    · have hl : ((2 * l : ℕ) : ℚ) / 2 = (l : ℚ) := by push_cast; ring
      rw [hl]
      exact Rat.den_natCast l
  · obtain ⟨hdx, hdy⟩ := (generate_inv o w h hV).integ r0 h0 h0id
    rw [hx, hy]
    exact ⟨hdx, hdy⟩

theorem c8_even_grid_integer_coords_witness :
    ((generate oracle0 60 40).rooms.getD 0 default).x.den = 1 ∧
    ((generate oracle0 60 40).rooms.getD 0 default).y.den = 1 :=
  c8_even_grid_integer_coords oracle0 60 40 oracle0_valid ⟨30, rfl⟩ ⟨20, rfl⟩ _
    (by with_unfolding_all decide)

/-- C10: the room graph is a tree: `connections` has exactly
`rooms.length - 1` records, their `to` endpoints are exactly the non-spawn
room ids in creation order, every record has `from < to` (the parent was
created first, so the graph is acyclic), and each non-spawn room id occurs
exactly once as a `to` endpoint. -/
theorem c10_tree_structure (o : Oracle) (w h : ℕ) (hV : o.Valid) :
    (generate o w h).connections.length + 1 = (generate o w h).rooms.length ∧
    (generate o w h).connections.map (fun c => c.«to»)
      = ((generate o w h).rooms.map Room.id).drop 1 ∧
    (∀ c ∈ (generate o w h).connections, c.«from» < c.«to») ∧
    (∀ r ∈ (generate o w h).rooms, r.id ≠ 0 →
      ((generate o w h).connections.map (fun c => c.«to»)).count r.id = 1) := by
  have hInv := generate_inv o w h hV
  have hids : (generate o w h).rooms.map Room.id
      = (generateRoomGraph o w h (targetCount o)).rooms.map Room.id := by
    have e1 : (generate o w h).rooms.map Room.id
        = ((generate o w h).rooms.map core).map (fun t => t.1) := by
      rw [List.map_map]
      exact List.map_congr_left fun r _ => rfl
    rw [e1, generate_rooms_map_core o w h, List.map_map]
    exact List.map_congr_left fun r _ => rfl
  have hct := hInv.conns_to
  refine ⟨?_, ?_, ?_, ?_⟩
  · have hlc := congrArg List.length hct
    rw [List.length_map, List.length_drop, List.length_map] at hlc
    have hlenr : (generate o w h).rooms.length
        = (generateRoomGraph o w h (targetCount o)).rooms.length := by
      have := congrArg List.length (generate_rooms_map_core o w h)
      simpa using this
    have hpos := hInv.len_pos
    rw [generate_connections]
    omega
  · rw [generate_connections, hids, hct]
  · intro c hc
    rw [generate_connections] at hc
    exact hInv.from_lt c hc
  · intro r hr hne
    rw [generate_connections, hct]
    obtain ⟨r0, h0, hc⟩ := generate_mem_core o w h r hr
    have hidr : r.id = r0.id := (core_fields hc).1
    have hnodup :
        ((generateRoomGraph o w h (targetCount o)).rooms.map Room.id).Nodup :=
      hInv.ids_sorted.imp (fun hlt => ne_of_lt hlt)
    have hmem : r0.id
        ∈ (generateRoomGraph o w h (targetCount o)).rooms.map Room.id :=
      List.mem_map_of_mem Room.id h0
    obtain ⟨hd, tl, heq⟩ := List.exists_cons_of_ne_nil
      (List.length_pos.mp hInv.len_pos)
    have hhd : hd.id = 0 := by
      have hsome : (generateRoomGraph o w h (targetCount o)).rooms[0]? = some hd := by
        rw [heq]
        exact List.getElem?_cons_zero
      exact (hInv.room0 hd hsome).1
    rw [heq] at hmem hnodup ⊢
    simp only [List.map_cons, List.drop_succ_cons, List.drop_zero]
    rcases List.mem_cons.mp hmem with heq0 | hmem'
    · rw [hidr] at hne
      rw [hhd] at heq0
      omega
    · rw [hidr]
      have hnd : (tl.map Room.id).Nodup := (List.nodup_cons.mp hnodup).2
      exact List.count_eq_one_of_mem hnd hmem'

theorem c10_tree_structure_witness :
    (generate oracleA 60 40).connections.length + 1
        = (generate oracleA 60 40).rooms.length ∧
    (({ «from» := 0, «to» := 1, type := "normal" } : Connection)).«from»
        < (({ «from» := 0, «to» := 1, type := "normal" } : Connection)).«to» ∧
    ((generate oracleA 60 40).connections.map (fun c => c.«to»)).count
        ((generate oracleA 60 40).rooms.getD 3 default).id = 1 :=
  ⟨(c10_tree_structure oracleA 60 40 oracleA_valid).1,
   (c10_tree_structure oracleA 60 40 oracleA_valid).2.2.1 _
     (by with_unfolding_all decide),
   (c10_tree_structure oracleA 60 40 oracleA_valid).2.2.2 _
     (by with_unfolding_all decide) (by with_unfolding_all decide)⟩

/-- C9: in every generated world, a room of height at least 5 never has a
border-ring cell marked as doorway (value 2) in the tilemap: the 3×3
doorway block around the centre anchor `(⌊width/2⌋, ⌊height/2⌋)` lies
strictly inside the interior for the generated widths (≥ 6) and heights
(≥ 5), and no other room's stamping can touch the cell because footprints
are pairwise disjoint.  (Only rooms of height exactly 4 get bottom-row
border cells overwritten as doorway.) -/
theorem c9_no_doorway_on_tall_room_border (o : Oracle) (w h : ℕ)
    (hV : o.Valid) (r : Room) (hr : r ∈ (generate o w h).rooms)
    (hh5 : 5 ≤ r.height) (cy cx : ℤ) (hb : OnBorderRing r cy cx) :
    (generate o w h).tilemap cy cx ≠ 2 := by
  intro h2
  obtain ⟨lx, ly, hlx, hly, hex, hey, hedge⟩ := hb
  have ht : (generate o w h).tilemap
      = buildTilemap w h (generate o w h).rooms := rfl
  rw [ht] at h2
  rcases buildTilemap_cases w h (generate o w h).rooms cy cx with
    hz | ⟨r', hr', lx', ly', h0, h1, hx', hy', hval⟩
  · rw [hz] at h2
    omega
  · have hsep := pairwise_overlap_of_map_core_eq
      (generate_rooms_map_core o w h) (generate_inv o w h hV).sep
    have hreq : r' = r := sep_covers_eq hsep hr' hr h0 h1 hx' hy' hlx hly hex hey
    subst hreq
    have hlxeq : lx' = lx := by
      have hq : (lx' : ℚ) = (lx : ℚ) := by
        have := hx'.trans hex.symm
        linarith
      exact_mod_cast hq
    have hlyeq : ly' = ly := by
      have hq : (ly' : ℚ) = (ly : ℚ) := by
        have := hy'.trans hey.symm
        linarith
      exact_mod_cast hq
    subst hlxeq
    subst hlyeq
    have hd2 := cellValue_eq_two (hval.symm.trans h2)
    unfold isDoorwayCell at hd2
    rw [List.any_eq_true] at hd2
    obtain ⟨d, hdmem, hdtest⟩ := hd2
    rw [Bool.and_eq_true, decide_eq_true_eq, decide_eq_true_eq] at hdtest
    obtain ⟨hdx, hdy⟩ := hdtest
    obtain ⟨hax, hay⟩ := generate_doorways o w h r' hr' d hdmem
    rw [hax] at hdx
    rw [hay] at hdy
    have hxabs : |((r'.width / 2 : ℕ) : ℚ) - (lx' : ℚ)| ≤ 1 := by
      have harr : r'.x + ((r'.width / 2 : ℕ) : ℚ) - (r'.x + (lx' : ℚ))
          = ((r'.width / 2 : ℕ) : ℚ) - lx' := by ring
      rwa [harr] at hdx
    have hyabs : |((r'.height / 2 : ℕ) : ℚ) - (ly' : ℚ)| ≤ 1 := by
      have harr : r'.y + ((r'.height / 2 : ℕ) : ℚ) - (r'.y + (ly' : ℚ))
          = ((r'.height / 2 : ℕ) : ℚ) - ly' := by ring
      rwa [harr] at hdy
    obtain ⟨hx1, hx2⟩ := abs_le.mp hxabs
    obtain ⟨hy1, hy2⟩ := abs_le.mp hyabs
    have hxn1 : r'.width / 2 ≤ lx' + 1 := by
      have hq : ((r'.width / 2 : ℕ) : ℚ) ≤ (lx' : ℚ) + 1 := by linarith
      exact_mod_cast hq
    have hxn2 : lx' ≤ r'.width / 2 + 1 := by
      have hq : (lx' : ℚ) ≤ ((r'.width / 2 : ℕ) : ℚ) + 1 := by linarith
      exact_mod_cast hq
    have hyn1 : r'.height / 2 ≤ ly' + 1 := by
      have hq : ((r'.height / 2 : ℕ) : ℚ) ≤ (ly' : ℚ) + 1 := by linarith
      exact_mod_cast hq
    have hyn2 : ly' ≤ r'.height / 2 + 1 := by
      have hq : (ly' : ℚ) ≤ ((r'.height / 2 : ℕ) : ℚ) + 1 := by linarith
      exact_mod_cast hq
    obtain ⟨r0, h0r, hcore⟩ := generate_mem_core o w h r' hr'
    have hw6 : 6 ≤ r'.width := by
      have hweq : r'.width = r0.width := (core_fields hcore).2.2.2.1
      rw [hweq]
      exact ((generate_inv o w h hV).dims r0 h0r).1
    rcases hedge with he | he | he | he <;> omega

theorem c9_no_doorway_on_tall_room_border_witness :
    (generate oracle0 60 40).tilemap 20 30 ≠ 2 :=
  c9_no_doorway_on_tall_room_border oracle0 60 40 oracle0_valid
    ((generate oracle0 60 40).rooms.getD 0 default)
    (by with_unfolding_all decide)
    (by with_unfolding_all decide)
    20 30
    ⟨0, 0, by with_unfolding_all decide, by with_unfolding_all decide,
      by with_unfolding_all decide, by with_unfolding_all decide, Or.inl rfl⟩

end AbyssWalker
